import Mathlib

/-!
Shallow embedding of the orchestration core of the `foam` repository
(`src/foam/__init__.py`): the level cache (`SpherizationDatabase`), the
task dispatcher (`ParallelSpherizer`), the orchestrator
(`SpherizationHelper`) with its two level-selection policies, and the
computation work unit (`spherize_mesh`) with its fallback chain.

Python dictionaries are embedded as association lists with Python's
update-in-place semantics (`dictGet` / `dictSet`); fallible lookups
return `Option`; the external geometric collaborators (mesh loading,
repair, decomposition, the sphere-tree engine) are abstracted as an
`Externals` record of opaque functions, and the work unit additionally
returns a trace of which collaborators it invoked, in order.
-/

/-- Modelled from the spec: a primitive descriptor (three spatial
coordinates plus one scalar size).  The `Sphere` record lives in the
repository's `model` module, which is not under `src/`; scalars are
embedded as rationals. -/
structure Sphere where
  x : ℚ
  y : ℚ
  z : ℚ
  radius : ℚ
deriving DecidableEq

/-- Modelled from the spec: an Approximation — an ordered sequence of
primitives plus three scalar error metrics (the `Spherization` record of
the missing `model` module). -/
structure Spherization where
  spheres : List Sphere
  mean_error : ℚ
  best_error : ℚ
  worst_error : ℚ
deriving DecidableEq

/-- Modelled from the spec: the total order used for cache replacement —
`A` is better than `B` iff `(A.mean_error, A.worst_error)` is
lexicographically smaller than `(B.mean_error, B.worst_error)` (the
`__lt__` of the missing `model` module). -/
def Spherization.lt (a b : Spherization) : Bool :=
  decide (a.mean_error < b.mean_error) ||
    (decide (a.mean_error = b.mean_error) && decide (a.worst_error < b.worst_error))

/-- Lookup in a Python dictionary embedded as an association list. -/
def dictGet {K V : Type} [DecidableEq K] : List (K × V) → K → Option V
  | [], _ => none
  | (k2, v) :: rest, k => if k = k2 then some v else dictGet rest k

/-- Update-in-place of a Python dictionary embedded as an association
list: replaces the binding when the key is present, appends otherwise. -/
def dictSet {K V : Type} [DecidableEq K] : List (K × V) → K → V → List (K × V)
  | [], k, v => [(k, v)]
  | (k2, v2) :: rest, k, v =>
      if k = k2 then (k, v) :: rest else (k2, v2) :: dictSet rest k v

/-- Innermost layer of the cache: level number to best Approximation. -/
abbrev LevelMap := List (Nat × Spherization)

/-- Middle layer of the cache: branch factor to level map. -/
abbrev BranchMap := List (Nat × LevelMap)

/-- The nested cache mapping of `SpherizationDatabase.db`:
shape id to branch factor to level to Approximation. -/
abbrev DB := List (String × BranchMap)

/-- Embeds `SpherizationDatabase.add`: create the nested dictionaries as
needed; insert when the level key is absent; otherwise replace only when
the incoming value is strictly better under `Spherization.lt`. -/
def SpherizationDatabase.add (db : DB) (mesh : String) (branch depth : Nat)
    (spherization : Spherization) : DB :=
  let mdb := (dictGet db mesh).getD []
  let bdb := (dictGet mdb branch).getD []
  let bdb2 :=
    match dictGet bdb depth with
    | none => dictSet bdb depth spherization
    | some cur => if spherization.lt cur then dictSet bdb depth spherization else bdb
  dictSet db mesh (dictSet mdb branch bdb2)

/-- Embeds `SpherizationDatabase.get`: the chained subscript
`db[mesh][branch][depth]`, with a missing key (Python `KeyError`)
embedded as `none`. -/
def SpherizationDatabase.get (db : DB) (mesh : String) (branch depth : Nat) :
    Option Spherization :=
  match dictGet db mesh with
  | none => none
  | some mdb =>
    match dictGet mdb branch with
    | none => none
    | some bdb => dictGet bdb depth

/-- Embeds `SpherizationDatabase.exists`: the nested membership test. -/
def SpherizationDatabase.existsEntry (db : DB) (mesh : String) (branch depth : Nat) :
    Bool :=
  match dictGet db mesh with
  | none => false
  | some mdb =>
    match dictGet mdb branch with
    | none => false
    | some bdb => (dictGet bdb depth).isSome

/-- Folds a sequence of insertions for one key through
`SpherizationDatabase.add` (a sequence of `put` calls on that key). -/
def putAll (db : DB) (mesh : String) (branch depth : Nat)
    (as : List Spherization) : DB :=
  as.foldl (fun d a => SpherizationDatabase.add d mesh branch depth a) db

/-- Running minimum under `Spherization.lt`, keeping the earlier element
on ties — the value the cache retains after a sequence of insertions. -/
def runBest (c : Spherization) (as : List Spherization) : Spherization :=
  as.foldl (fun cur a => if a.lt cur then a else cur) c

/-- Embeds the loop of `SpherizationHelper._select_level`:
`for level in range(n, -1, -1)`, returning the first Approximation with
non-empty `spheres`, or `none` when the loop finishes without returning. -/
def select_level_loop (levels : List Spherization) : Nat → Option Spherization
  | 0 =>
    match levels[0]? with
    | some s => if 0 < s.spheres.length then some s else none
    | none => none
  | n + 1 =>
    match levels[n + 1]? with
    | some s => if 0 < s.spheres.length then some s else select_level_loop levels n
    | none => select_level_loop levels n

/-- Embeds `SpherizationHelper._select_level`: raise (`none`) on an empty
sequence; otherwise walk from `min depth (length - 1)` down to 0 looking
for a non-empty level, falling back to the entry at
`min depth (length - 1)` itself. -/
def SpherizationHelper.select_level (levels : List Spherization) (depth : Nat) :
    Option Spherization :=
  match levels with
  | [] => none
  | _ :: _ =>
    match select_level_loop levels (min depth (levels.length - 1)) with
    | some s => some s
    | none => levels[min depth (levels.length - 1)]?

/-- Embeds the loop of `SpherizationHelper._select_cached_level`:
`for level in range(depth, -1, -1)`, returning the first cached entry
with non-empty `spheres`, or `none` when the loop finishes. -/
def select_cached_loop (db : DB) (name : String) (branch : Nat) :
    Nat → Option Spherization
  | 0 =>
    match SpherizationDatabase.get db name branch 0 with
    | some c => if 0 < c.spheres.length then some c else none
    | none => none
  | n + 1 =>
    match SpherizationDatabase.get db name branch (n + 1) with
    | some c => if 0 < c.spheres.length then some c else select_cached_loop db name branch n
    | none => select_cached_loop db name branch n

/-- Embeds `SpherizationHelper._select_cached_level`: walk from `depth`
down to 0 looking for a cached non-empty entry, then fall back to the
lookup at exactly `depth` (whose `KeyError` is embedded as `none`). -/
def SpherizationHelper.select_cached_level (db : DB) (name : String)
    (branch depth : Nat) : Option Spherization :=
  match select_cached_loop db name branch depth with
  | some c => some c
  | none => SpherizationDatabase.get db name branch depth

/-- Embeds the caching loop of `SpherizationHelper.get_spherization`:
`for level, sphere_level in enumerate(spherizations): db.add(...)`. -/
def cacheAll (db : DB) (name : String) (branch : Nat)
    (sphs : List Spherization) : DB :=
  sphs.enum.foldl (fun d p => SpherizationDatabase.add d name branch p.1 p.2) db

/-- Embeds `SpherizationHelper.get_spherization`.  The blocking
`self.ps.get(name)` is embedded as a lookup in `results`, the map from
task name to the completed task's output; an unknown name is `none`.
Returns the selected Approximation together with the updated cache. -/
def SpherizationHelper.get_spherization (db : DB)
    (results : List (String × List Spherization)) (name : String)
    (depth branch : Nat) (cache : Bool) : Option Spherization × DB :=
  if SpherizationDatabase.existsEntry db name branch depth then
    (SpherizationHelper.select_cached_level db name branch depth, db)
  else
    match dictGet results name with
    | none => (none, db)
    | some sphs =>
      let db2 := if cache then cacheAll db name branch sphs else db
      (SpherizationHelper.select_level sphs depth, db2)

/-- Embeds the observable state of `ParallelSpherizer`: the in-flight
table `waiting` (name to future), the ordered list of work-unit
invocations handed to the executor, and a counter supplying fresh future
identifiers. -/
structure ParallelSpherizer where
  waiting : List (String × Nat)
  submitted : List Nat
  nextId : Nat
deriving DecidableEq

/-- Embeds `ParallelSpherizer.__init__`: empty table, nothing submitted. -/
def ParallelSpherizer.init : ParallelSpherizer :=
  { waiting := [], submitted := [], nextId := 0 }

/-- Embeds `ParallelSpherizer.spherize_mesh`: `executor.submit` launches
a new work-unit invocation unconditionally, then `self.waiting[name] =
future` stores the handle, overwriting any previous binding. -/
def ParallelSpherizer.spherize_mesh (ps : ParallelSpherizer) (name : String) :
    ParallelSpherizer :=
  { waiting := dictSet ps.waiting name ps.nextId
  , submitted := ps.submitted ++ [ps.nextId]
  , nextId := ps.nextId + 1 }

/-- Embeds the state of `SpherizationHelper`: a dispatcher and a cache. -/
structure SpherizationHelper where
  ps : ParallelSpherizer
  db : DB
deriving DecidableEq

/-- Embeds `SpherizationHelper.spherize_mesh` (the enqueue entry point):
submit a dispatcher job named after the shape only when the cache has no
entry for `(name, branch, depth)`. -/
def SpherizationHelper.spherize_mesh (h : SpherizationHelper) (name : String)
    (branch depth : Nat) : SpherizationHelper :=
  if SpherizationDatabase.existsEntry h.db name branch depth then h
  else { h with ps := ParallelSpherizer.spherize_mesh h.ps name }

/-- Events recorded by the traced work unit: suitability predicate,
repair/simplification pass, decomposition pass, engine invocation, and
the normalization (transform, scale, centering) of the input mesh. -/
inductive Ev
  | check
  | repair
  | decomp
  | compute
  | center
deriving DecidableEq

/-- The external collaborators of the work unit `spherize_mesh`, none of
which are under `src/`: the suitability predicate
`check_valid_for_spherization`, the repair pass `smooth_manifold`
(manifold plus simplify plus smooth, lines 18-23 of the source, folded
into one opaque pass), convex decomposition followed by concatenation,
the engine `compute_spheres` (raising embedded as `none`), the
normalization of lines 59-69 (optional transform, optional scale,
centering on the bounding-box midpoint), and the final per-sphere offset
of lines 91-92. -/
structure Externals (Mesh : Type) where
  check_valid_for_spherization : Mesh → Bool
  smooth_manifold : Mesh → Mesh
  convex_decomposition : Mesh → Mesh
  compute_spheres : Mesh → Option (List Spherization)
  normalize : Mesh → Mesh
  offset_spheres : List Spherization → List Spherization

/-- Input to the work unit: either a sphere primitive (`TMSphere`) with
its center and radius, or a general mesh. -/
inductive MeshInput (Mesh : Type)
  | sphereInput (x y z radius : ℚ)
  | meshInput (m : Mesh)

/-- The mesh after the first suitability stage of `spherize_mesh`:
normalized, then repaired once when the predicate rejects it. -/
def repairedMesh {Mesh : Type} (ext : Externals Mesh) (m : Mesh) : Mesh :=
  if ext.check_valid_for_spherization (ext.normalize m) then ext.normalize m
  else ext.smooth_manifold (ext.normalize m)

/-- The mesh handed to the engine by `spherize_mesh`: after the second
suitability stage, decomposed once when the predicate still rejects it. -/
def preparedMesh {Mesh : Type} (ext : Externals Mesh) (m : Mesh) : Mesh :=
  if ext.check_valid_for_spherization (repairedMesh ext m) then repairedMesh ext m
  else ext.convex_decomposition (repairedMesh ext m)

/-- Embeds the work unit `spherize_mesh` (lines 26-94 of the source),
returning its result together with the trace of collaborator
invocations.  A `TMSphere` input returns `depth + 1` copies of the exact
single-primitive Approximation with zero errors, before any other step;
a mesh input is normalized, passed through the two suitability fallback
stages, then given to the engine, with one repair-and-retry when the
engine raises and a fatal failure (`none`, the `RuntimeError`) when the
retry also raises. -/
def spherize_mesh {Mesh : Type} (ext : Externals Mesh) (input : MeshInput Mesh)
    (depth : Nat) : Option (List Spherization) × List Ev :=
  match input with
  | .sphereInput x y z r =>
    (some (List.replicate (depth + 1)
      { spheres := [{ x := x, y := y, z := z, radius := r }]
      , mean_error := 0, best_error := 0, worst_error := 0 }), [])
  | .meshInput m0 =>
    let t1 : List Ev :=
      if ext.check_valid_for_spherization (ext.normalize m0) then [Ev.center, Ev.check]
      else [Ev.center, Ev.check, Ev.repair]
    let t2 : List Ev :=
      if ext.check_valid_for_spherization (repairedMesh ext m0) then t1 ++ [Ev.check]
      else t1 ++ [Ev.check, Ev.decomp]
    match ext.compute_spheres (preparedMesh ext m0) with
    | some spheres => (some (ext.offset_spheres spheres), t2 ++ [Ev.compute])
    | none =>
      match ext.compute_spheres (ext.smooth_manifold (preparedMesh ext m0)) with
      | some spheres =>
        (some (ext.offset_spheres spheres), t2 ++ [Ev.compute, Ev.repair, Ev.compute])
      | none => (none, t2 ++ [Ev.compute, Ev.repair, Ev.compute])

/-- Number of occurrences of one event in a trace. -/
def countEv (tr : List Ev) (e : Ev) : Nat :=
  (tr.filter (fun x => x = e)).length

/-- Concrete empty-primitives Approximation used in concrete scenarios. -/
def A0c : Spherization :=
  { spheres := [], mean_error := 1, best_error := 1, worst_error := 1 }

/-- Concrete one-primitive Approximation used in concrete scenarios. -/
def A1c : Spherization :=
  { spheres := [{ x := 0, y := 0, z := 0, radius := 1 }]
  , mean_error := 0, best_error := 0, worst_error := 0 }

/-- Concrete shape id used in concrete scenarios. -/
def keyM : String := "m"

/-- Concrete task name used in concrete dispatcher scenarios. -/
def keyA : String := "a"

lemma dictGet_dictSet_self {K V : Type} [DecidableEq K] (d : List (K × V)) (k : K) (v : V) :
    dictGet (dictSet d k v) k = some v := by
  induction d with
  | nil => simp [dictGet, dictSet]
  | cons p rest ih =>
    rcases p with ⟨k2, v2⟩
    by_cases h : k = k2 <;> simp [dictGet, dictSet, h, ih]

lemma dictGet_dictSet_ne {K V : Type} [DecidableEq K] (d : List (K × V)) (k k3 : K)
    (v : V) (hne : k3 ≠ k) : dictGet (dictSet d k v) k3 = dictGet d k3 := by
  induction d with
  | nil => simp [dictGet, dictSet, hne]
  | cons p rest ih =>
    rcases p with ⟨k2, v2⟩
    by_cases h : k = k2
    · subst h
      simp [dictGet, dictSet, hne]
    · by_cases h3 : k3 = k2 <;> simp [dictGet, dictSet, h, h3, ih]

lemma dictSet_self {K V : Type} [DecidableEq K] (d : List (K × V)) (k : K) (v : V)
    (h : dictGet d k = some v) : dictSet d k v = d := by
  induction d with
  | nil => simp [dictGet] at h
  | cons p rest ih =>
    rcases p with ⟨k2, v2⟩
    by_cases hk : k = k2
    · subst hk
      simp [dictGet] at h
      simp [dictSet, h]
    · simp [dictGet, hk] at h
      simp [dictSet, hk, ih h]

lemma mem_map_fst_dictSet {K V : Type} [DecidableEq K] (d : List (K × V)) (k x : K)
    (v : V) : x ∈ (dictSet d k v).map Prod.fst ↔ x ∈ d.map Prod.fst ∨ x = k := by
  induction d with
  | nil => simp [dictSet]
  | cons p rest ih =>
    rcases p with ⟨k2, v2⟩
    by_cases h : k = k2
    · subst h
      simp [dictSet]
      tauto
    · simp [dictSet, h, ih]
      tauto

lemma nodup_map_fst_dictSet {K V : Type} [DecidableEq K] (d : List (K × V)) (k : K)
    (v : V) (h : (d.map Prod.fst).Nodup) : ((dictSet d k v).map Prod.fst).Nodup := by
  induction d with
  | nil => simp [dictSet]
  | cons p rest ih =>
    rcases p with ⟨k2, v2⟩
    rw [List.map_cons, List.nodup_cons] at h
    by_cases hk : k = k2
    · subst hk
      simp only [dictSet]
      rw [if_true, List.map_cons, List.nodup_cons]
      exact h
    · have hnotin : k2 ∉ (dictSet rest k v).map Prod.fst := by
        intro hmem
        rcases (mem_map_fst_dictSet rest k k2 v).mp hmem with hin | heq
        · exact h.1 hin
        · exact hk heq.symm
      simp only [dictSet]
      rw [if_neg hk, List.map_cons, List.nodup_cons]
      exact ⟨hnotin, ih h.2⟩

lemma existsEntry_eq_isSome (db : DB) (mesh : String) (branch depth : Nat) :
    SpherizationDatabase.existsEntry db mesh branch depth =
      (SpherizationDatabase.get db mesh branch depth).isSome := by
  unfold SpherizationDatabase.existsEntry SpherizationDatabase.get
  rcases hm : dictGet db mesh with _ | mdb
  · simp
  · rcases hb : dictGet mdb branch with _ | bdb <;> simp [hb]

lemma lt_spec (a b : Spherization) :
    Spherization.lt a b = true ↔
      (a.mean_error < b.mean_error ∨
        (a.mean_error = b.mean_error ∧ a.worst_error < b.worst_error)) := by
  simp [Spherization.lt]

lemma lt_self_false (a : Spherization) : Spherization.lt a a = false := by
  simp [Spherization.lt]

lemma lt_false_trans (a b c : Spherization) (h1 : Spherization.lt a b = false)
    (h2 : Spherization.lt b c = false) : Spherization.lt a c = false := by
  rw [Bool.eq_false_iff, Ne, lt_spec] at h1 h2 ⊢
  push_neg at h1 h2 ⊢
  obtain ⟨h1m, h1w⟩ := h1
  obtain ⟨h2m, h2w⟩ := h2
  refine ⟨by linarith, fun heq => ?_⟩
  have hab : a.mean_error = b.mean_error := le_antisymm (by linarith) h1m
  have hbc : b.mean_error = c.mean_error := le_antisymm (by linarith) h2m
  have hw1 := h1w hab
  have hw2 := h2w hbc
  linarith

lemma lt_true_false (a b c : Spherization) (h1 : Spherization.lt a b = true)
    (h2 : Spherization.lt a c = false) : Spherization.lt b c = false := by
  rw [lt_spec] at h1
  rw [Bool.eq_false_iff, Ne, lt_spec] at h2 ⊢
  push_neg at h2 ⊢
  rcases h1 with hm | ⟨hme, hw⟩
  · refine ⟨by linarith [h2.1], fun heq => ?_⟩
    exfalso
    have := h2.1
    linarith
  · refine ⟨by linarith [h2.1], fun heq => ?_⟩
    have hca : c.mean_error ≤ a.mean_error := h2.1
    have hac : a.mean_error = c.mean_error := by linarith
    have hwc := h2.2 hac
    linarith

lemma get_add_self (db : DB) (mesh : String) (branch depth : Nat) (s : Spherization) :
    SpherizationDatabase.get (SpherizationDatabase.add db mesh branch depth s)
      mesh branch depth =
    some (match SpherizationDatabase.get db mesh branch depth with
          | none => s
          | some cur => if s.lt cur then s else cur) := by
  unfold SpherizationDatabase.add SpherizationDatabase.get
  rcases hm : dictGet db mesh with _ | mdb
  · simp [hm, dictGet, dictGet_dictSet_self]
  · simp only [hm, Option.getD_some]
    rcases hb : dictGet mdb branch with _ | bdb
    · simp [hb, dictGet, dictGet_dictSet_self]
    · simp only [hb, Option.getD_some]
      rcases hd : dictGet bdb depth with _ | cur
      · simp [hd, dictGet_dictSet_self]
      · by_cases hlt : s.lt cur = true
        · simp [hd, hlt, dictGet_dictSet_self]
        · rw [Bool.not_eq_true] at hlt
          simp [hd, hlt, dictGet_dictSet_self]

lemma add_no_op (db : DB) (mesh : String) (branch depth : Nat) (a cur : Spherization)
    (hget : SpherizationDatabase.get db mesh branch depth = some cur)
    (hlt : Spherization.lt a cur = false) :
    SpherizationDatabase.add db mesh branch depth a = db := by
  unfold SpherizationDatabase.get at hget
  rcases hm : dictGet db mesh with _ | mdb
  · simp [hm] at hget
  · simp only [hm] at hget
    rcases hb : dictGet mdb branch with _ | bdb
    · simp [hb] at hget
    · simp only [hb] at hget
      unfold SpherizationDatabase.add
      simp only [hm, Option.getD_some, hb, hget, hlt, Bool.false_eq_true, if_false]
      rw [dictSet_self mdb branch bdb hb, dictSet_self db mesh mdb hm]

lemma get_of_existsEntry_false (db : DB) (mesh : String) (branch depth : Nat)
    (h : SpherizationDatabase.existsEntry db mesh branch depth = false) :
    SpherizationDatabase.get db mesh branch depth = none := by
  rw [existsEntry_eq_isSome] at h
  exact Option.not_isSome_iff_eq_none.mp (by simp [h])

lemma putAll_get (mesh : String) (branch depth : Nat) (as : List Spherization) :
    ∀ (db : DB) (c : Spherization),
      SpherizationDatabase.get db mesh branch depth = some c →
      SpherizationDatabase.get (putAll db mesh branch depth as) mesh branch depth =
        some (runBest c as) := by
  induction as with
  | nil =>
    intro db c hc
    simpa [putAll, runBest] using hc
  | cons x xs ih =>
    intro db c hc
    have h1 : SpherizationDatabase.get (SpherizationDatabase.add db mesh branch depth x)
        mesh branch depth = some (if x.lt c then x else c) := by
      rw [get_add_self, hc]
    have h2 := ih (SpherizationDatabase.add db mesh branch depth x) _ h1
    simpa [putAll, runBest, List.foldl_cons] using h2

lemma runBest_mem (as : List Spherization) :
    ∀ c : Spherization, runBest c as ∈ c :: as := by
  induction as with
  | nil => intro c; simp [runBest]
  | cons x xs ih =>
    intro c
    by_cases hx : x.lt c = true
    · have := ih x
      simp only [runBest, List.foldl_cons, hx, if_true] at *
      rcases List.mem_cons.mp this with h | h
      · exact List.mem_cons.mpr (Or.inr (List.mem_cons.mpr (Or.inl h)))
      · exact List.mem_cons.mpr (Or.inr (List.mem_cons.mpr (Or.inr h)))
    · rw [Bool.not_eq_true] at hx
      have := ih c
      simp only [runBest, List.foldl_cons, hx, Bool.false_eq_true, if_false] at *
      rcases List.mem_cons.mp this with h | h
      · exact List.mem_cons.mpr (Or.inl h)
      · exact List.mem_cons.mpr (Or.inr (List.mem_cons.mpr (Or.inr h)))

lemma runBest_min (as : List Spherization) :
    ∀ c b : Spherization, b ∈ c :: as → Spherization.lt b (runBest c as) = false := by
  induction as with
  | nil =>
    intro c b hb
    simp at hb
    subst hb
    simp [runBest, lt_self_false]
  | cons x xs ih =>
    intro c b hb
    by_cases hx : x.lt c = true
    · simp only [runBest, List.foldl_cons, hx, if_true]
      have hrunx : Spherization.lt x (runBest x xs) = false :=
        ih x x (List.mem_cons_self x xs)
      rcases List.mem_cons.mp hb with rfl | hb2
      · exact lt_true_false x b (runBest x xs) hx hrunx
      · exact ih x b hb2
    · rw [Bool.not_eq_true] at hx
      simp only [runBest, List.foldl_cons, hx, Bool.false_eq_true, if_false]
      have hrunc : Spherization.lt c (runBest c xs) = false :=
        ih c c (List.mem_cons_self c xs)
      rcases List.mem_cons.mp hb with rfl | hb2
      · exact hrunc
      · rcases List.mem_cons.mp hb2 with rfl | hb3
        · exact lt_false_trans b c (runBest c xs) hx hrunc
        · exact ih c b (List.mem_cons.mpr (Or.inr hb3))

lemma select_level_loop_none (levels : List Spherization) :
    ∀ n : Nat, (∀ i, i ≤ n → ∀ s, levels[i]? = some s → s.spheres.length = 0) →
      select_level_loop levels n = none := by
  intro n
  induction n with
  | zero =>
    intro h
    unfold select_level_loop
    rcases hl : levels[0]? with _ | s
    · rfl
    · simp [h 0 (le_refl 0) s hl]
  | succ n ih =>
    intro h
    unfold select_level_loop
    rcases hl : levels[n + 1]? with _ | s
    · exact ih fun i hi s hs => h i (Nat.le_succ_of_le hi) s hs
    · simp [h (n + 1) (le_refl _) s hl]
      exact ih fun i hi s hs => h i (Nat.le_succ_of_le hi) s hs

lemma select_level_loop_finds (levels : List Spherization) :
    ∀ n l : Nat, ∀ s : Spherization, l ≤ n → levels[l]? = some s →
      0 < s.spheres.length →
      (∀ j t, l < j → j ≤ n → levels[j]? = some t → t.spheres.length = 0) →
      select_level_loop levels n = some s := by
  intro n
  induction n with
  | zero =>
    intro l s hl hs hpos _
    have h0 : l = 0 := Nat.le_zero.mp hl
    subst h0
    unfold select_level_loop
    simp [hs, hpos]
  | succ n ih =>
    intro l s hl hs hpos hemp
    by_cases heq : l = n + 1
    · subst heq
      unfold select_level_loop
      simp [hs, hpos]
    · have hl2 : l ≤ n := Nat.lt_succ_iff.mp (lt_of_le_of_ne hl heq)
      unfold select_level_loop
      rcases htop : levels[n + 1]? with _ | t
      · exact ih l s hl2 hs hpos fun j t h1 h2 h3 => hemp j t h1 (Nat.le_succ_of_le h2) h3
      · have hz := hemp (n + 1) t (Nat.lt_succ_of_le hl2) (le_refl _) htop
        simp [hz]
        exact ih l s hl2 hs hpos fun j t h1 h2 h3 => hemp j t h1 (Nat.le_succ_of_le h2) h3

lemma select_cached_loop_none (db : DB) (name : String) (branch : Nat) :
    ∀ n : Nat,
      (∀ i, i ≤ n → ∀ c, SpherizationDatabase.get db name branch i = some c →
        c.spheres.length = 0) →
      select_cached_loop db name branch n = none := by
  intro n
  induction n with
  | zero =>
    intro h
    unfold select_cached_loop
    rcases hl : SpherizationDatabase.get db name branch 0 with _ | c
    · rfl
    · simp [h 0 (le_refl 0) c hl]
  | succ n ih =>
    intro h
    unfold select_cached_loop
    rcases hl : SpherizationDatabase.get db name branch (n + 1) with _ | c
    · exact ih fun i hi c hc => h i (Nat.le_succ_of_le hi) c hc
    · simp [h (n + 1) (le_refl _) c hl]
      exact ih fun i hi c hc => h i (Nat.le_succ_of_le hi) c hc

lemma select_cached_loop_finds (db : DB) (name : String) (branch : Nat) :
    ∀ n l : Nat, ∀ c : Spherization, l ≤ n →
      SpherizationDatabase.get db name branch l = some c →
      0 < c.spheres.length →
      (∀ j t, l < j → j ≤ n → SpherizationDatabase.get db name branch j = some t →
        t.spheres.length = 0) →
      select_cached_loop db name branch n = some c := by
  intro n
  induction n with
  | zero =>
    intro l c hl hc hpos _
    have h0 : l = 0 := Nat.le_zero.mp hl
    subst h0
    unfold select_cached_loop
    simp [hc, hpos]
  | succ n ih =>
    intro l c hl hc hpos hemp
    by_cases heq : l = n + 1
    · subst heq
      unfold select_cached_loop
      simp [hc, hpos]
    · have hl2 : l ≤ n := Nat.lt_succ_iff.mp (lt_of_le_of_ne hl heq)
      unfold select_cached_loop
      rcases htop : SpherizationDatabase.get db name branch (n + 1) with _ | t
      · exact ih l c hl2 hc hpos fun j t h1 h2 h3 => hemp j t h1 (Nat.le_succ_of_le h2) h3
      · have hz := hemp (n + 1) t (Nat.lt_succ_of_le hl2) (le_refl _) htop
        simp [hz]
        exact ih l c hl2 hc hpos fun j t h1 h2 h3 => hemp j t h1 (Nat.le_succ_of_le h2) h3

/-- C1: for every cache key, `put` inserts when the key is absent, replaces
the stored value only when the incoming Approximation is strictly better
under the lexicographic order on (mean_error, worst_error), is otherwise a
no-op, and for any sequence of Approximations inserted via `put` in any
order starting from an absent key, the final stored value is the minimum
of the inserted values under that total order (an inserted value below or
equal to every other inserted value). -/
theorem C1_put_monotonic_best_of :
    (∀ (db : DB) (mesh : String) (branch depth : Nat) (a : Spherization),
      SpherizationDatabase.existsEntry db mesh branch depth = false →
      SpherizationDatabase.get (SpherizationDatabase.add db mesh branch depth a)
        mesh branch depth = some a) ∧
    (∀ (db : DB) (mesh : String) (branch depth : Nat) (a cur : Spherization),
      SpherizationDatabase.get db mesh branch depth = some cur →
      Spherization.lt a cur = true →
      SpherizationDatabase.get (SpherizationDatabase.add db mesh branch depth a)
        mesh branch depth = some a) ∧
    (∀ (db : DB) (mesh : String) (branch depth : Nat) (a cur : Spherization),
      SpherizationDatabase.get db mesh branch depth = some cur →
      Spherization.lt a cur = false →
      SpherizationDatabase.add db mesh branch depth a = db) ∧
    (∀ (mesh : String) (branch depth : Nat) (a : Spherization)
        (as : List Spherization),
      SpherizationDatabase.get (putAll [] mesh branch depth (a :: as))
          mesh branch depth = some (runBest a as) ∧
      runBest a as ∈ a :: as ∧
      ∀ b, b ∈ a :: as → Spherization.lt b (runBest a as) = false) := by
  refine ⟨?_, ?_, ?_, ?_⟩
  · intro db mesh branch depth a h
    rw [get_add_self, get_of_existsEntry_false db mesh branch depth h]
  · intro db mesh branch depth a cur hget hlt
    rw [get_add_self, hget]
    simp [hlt]
  · intro db mesh branch depth a cur hget hlt
    exact add_no_op db mesh branch depth a cur hget hlt
  · intro mesh branch depth a as
    refine ⟨?_, runBest_mem as a, runBest_min as a⟩
    have h0 : SpherizationDatabase.get (SpherizationDatabase.add [] mesh branch depth a)
        mesh branch depth = some a := by
      rw [get_add_self]
      simp [SpherizationDatabase.get, dictGet]
    have h1 := putAll_get mesh branch depth as
      (SpherizationDatabase.add [] mesh branch depth a) a h0
    simpa [putAll, List.foldl_cons] using h1

/-- Witness for C1: inserting into an absent key stores the value, and the
fold of two insertions stores their running minimum. -/
theorem C1_put_monotonic_best_of_witness :
    SpherizationDatabase.get (SpherizationDatabase.add [] keyM 8 0 A1c) keyM 8 0 =
        some A1c ∧
    SpherizationDatabase.get (putAll [] keyM 8 0 [A0c, A1c]) keyM 8 0 =
        some (runBest A0c [A1c]) :=
  ⟨C1_put_monotonic_best_of.1 [] keyM 8 0 A1c (by decide),
   (C1_put_monotonic_best_of.2.2.2 keyM 8 0 A0c [A1c]).1⟩

/-- C8: `put` is idempotent — repeating the same insertion leaves the cache
identical, and so does following an insertion with one that is not
strictly better. -/
theorem C8_put_idempotent :
    (∀ (db : DB) (mesh : String) (branch depth : Nat) (a : Spherization),
      SpherizationDatabase.add (SpherizationDatabase.add db mesh branch depth a)
          mesh branch depth a =
        SpherizationDatabase.add db mesh branch depth a) ∧
    (∀ (db : DB) (mesh : String) (branch depth : Nat) (a b : Spherization),
      Spherization.lt b a = false →
      SpherizationDatabase.add (SpherizationDatabase.add db mesh branch depth a)
          mesh branch depth b =
        SpherizationDatabase.add db mesh branch depth a) := by
  have key : ∀ (db : DB) (mesh : String) (branch depth : Nat) (a b : Spherization),
      Spherization.lt b a = false →
      SpherizationDatabase.add (SpherizationDatabase.add db mesh branch depth a)
          mesh branch depth b =
        SpherizationDatabase.add db mesh branch depth a := by
    intro db mesh branch depth a b hba
    rcases hcur : SpherizationDatabase.get db mesh branch depth with _ | cur
    · have h1 : SpherizationDatabase.get (SpherizationDatabase.add db mesh branch depth a)
          mesh branch depth = some a := by
        rw [get_add_self, hcur]
      exact add_no_op _ mesh branch depth b a h1 hba
    · by_cases hlt : Spherization.lt a cur = true
      · have h1 : SpherizationDatabase.get (SpherizationDatabase.add db mesh branch depth a)
            mesh branch depth = some a := by
          rw [get_add_self, hcur]
          simp [hlt]
        exact add_no_op _ mesh branch depth b a h1 hba
      · rw [Bool.not_eq_true] at hlt
        have h1 : SpherizationDatabase.get (SpherizationDatabase.add db mesh branch depth a)
            mesh branch depth = some cur := by
          rw [get_add_self, hcur]
          simp [hlt]
        have hbc : Spherization.lt b cur = false := lt_false_trans b a cur hba hlt
        exact add_no_op _ mesh branch depth b cur h1 hbc
  exact ⟨fun db mesh branch depth a => key db mesh branch depth a a (lt_self_false a), key⟩

/-- Witness for C8: repeating a concrete insertion, and following it with a
worse value, both leave the cache as after the single insertion. -/
theorem C8_put_idempotent_witness :
    SpherizationDatabase.add (SpherizationDatabase.add [] keyM 8 0 A1c) keyM 8 0 A1c =
        SpherizationDatabase.add [] keyM 8 0 A1c ∧
    SpherizationDatabase.add (SpherizationDatabase.add [] keyM 8 0 A1c) keyM 8 0 A0c =
        SpherizationDatabase.add [] keyM 8 0 A1c :=
  ⟨C8_put_idempotent.1 [] keyM 8 0 A1c,
   C8_put_idempotent.2 [] keyM 8 0 A1c A0c (by decide)⟩

/-- C7: when the Level Cache already holds an entry for the exact key, the
enqueue entry point is a no-op — the whole orchestrator state, dispatcher
table included, is unchanged and no task is submitted. -/
theorem C7_enqueue_noop (h : SpherizationHelper) (name : String) (branch depth : Nat)
    (hcached : SpherizationDatabase.existsEntry h.db name branch depth = true) :
    SpherizationHelper.spherize_mesh h name branch depth = h := by
  unfold SpherizationHelper.spherize_mesh
  simp [hcached]

/-- Witness for C7 at a concrete cached state. -/
theorem C7_enqueue_noop_witness :
    SpherizationHelper.spherize_mesh
        { ps := ParallelSpherizer.init, db := SpherizationDatabase.add [] keyM 8 1 A1c }
        keyM 8 1 =
      { ps := ParallelSpherizer.init, db := SpherizationDatabase.add [] keyM 8 1 A1c } :=
  C7_enqueue_noop
    { ps := ParallelSpherizer.init, db := SpherizationDatabase.add [] keyM 8 1 A1c }
    keyM 8 1 (by decide)

/-- C10: whenever resolve takes the cached branch (the cache holds an entry
at exactly the requested key), it returns an Approximation without raising
and leaves the cache unchanged — the terminal NotFound is unreachable. -/
theorem C10_cached_branch_total (db : DB) (results : List (String × List Spherization))
    (name : String) (depth branch : Nat) (cache : Bool)
    (hex : SpherizationDatabase.existsEntry db name branch depth = true) :
    (SpherizationHelper.get_spherization db results name depth branch cache).2 = db ∧
    ∃ s, (SpherizationHelper.get_spherization db results name depth branch cache).1 =
      some s := by
  have hget : ∃ c, SpherizationDatabase.get db name branch depth = some c := by
    rw [existsEntry_eq_isSome] at hex
    exact Option.isSome_iff_exists.mp hex
  obtain ⟨c, hc⟩ := hget
  unfold SpherizationHelper.get_spherization
  simp only [hex, if_true]
  refine ⟨by trivial, ?_⟩
  unfold SpherizationHelper.select_cached_level
  rcases hloop : select_cached_loop db name branch depth with _ | s
  · exact ⟨c, by simp [hloop, hc]⟩
  · exact ⟨s, by simp [hloop]⟩

/-- Witness for C10 at a concrete cached state. -/
theorem C10_cached_branch_total_witness :
    (SpherizationHelper.get_spherization (SpherizationDatabase.add [] keyM 8 1 A1c)
        [] keyM 1 8 true).2 = SpherizationDatabase.add [] keyM 8 1 A1c ∧
    ∃ s, (SpherizationHelper.get_spherization (SpherizationDatabase.add [] keyM 8 1 A1c)
        [] keyM 1 8 true).1 = some s :=
  C10_cached_branch_total (SpherizationDatabase.add [] keyM 8 1 A1c) [] keyM 1 8 true
    (by decide)

/-- C2: the uncached path of resolve returns exactly the uncached
level-selection; on a non-empty sequence the selection starts at
`min(level, length - 1)`, walks strictly downward toward 0, and returns
the first Approximation with non-empty primitives; if every level down to
and including 0 is empty it returns the Approximation at
`min(level, length - 1)` regardless of emptiness; an empty sequence fails
(`EmptyResult`, embedded as `none`). -/
theorem C2_uncached_selection (levels : List Spherization) (depth : Nat) :
    (levels = [] → SpherizationHelper.select_level levels depth = none) ∧
    (∀ l s, levels ≠ [] → l ≤ min depth (levels.length - 1) →
      levels[l]? = some s → 0 < s.spheres.length →
      (∀ j t, l < j → j ≤ min depth (levels.length - 1) → levels[j]? = some t →
        t.spheres.length = 0) →
      SpherizationHelper.select_level levels depth = some s) ∧
    ((∀ i s, i ≤ min depth (levels.length - 1) → levels[i]? = some s →
        s.spheres.length = 0) →
      levels ≠ [] →
      SpherizationHelper.select_level levels depth =
        levels[min depth (levels.length - 1)]?) ∧
    (∀ (db : DB) (results : List (String × List Spherization)) (name : String)
        (branch : Nat) (cache : Bool),
      SpherizationDatabase.existsEntry db name branch depth = false →
      dictGet results name = some levels →
      (SpherizationHelper.get_spherization db results name depth branch cache).1 =
        SpherizationHelper.select_level levels depth) := by
  refine ⟨?_, ?_, ?_, ?_⟩
  · intro h
    subst h
    rfl
  · intro l s hne hl hs hpos hemp
    rcases levels with _ | ⟨a, rest⟩
    · exact absurd rfl hne
    · unfold SpherizationHelper.select_level
      rw [select_level_loop_finds (a :: rest) (min depth ((a :: rest).length - 1))
        l s hl hs hpos hemp]
  · intro hall hne
    rcases levels with _ | ⟨a, rest⟩
    · exact absurd rfl hne
    · unfold SpherizationHelper.select_level
      rw [select_level_loop_none (a :: rest) (min depth ((a :: rest).length - 1))
        (fun i hi s hs => hall i s hi hs)]
  · intro db results name branch cache hex hres
    unfold SpherizationHelper.get_spherization
    simp [hex, hres]

/-- Witness for C2: on the two-level sequence with an empty level 0, the
request for level 1 selects the non-empty level 1. -/
theorem C2_uncached_selection_witness :
    SpherizationHelper.select_level [A0c, A1c] 1 = some A1c :=
  (C2_uncached_selection [A0c, A1c] 1).2.1 1 A1c (by decide) (by decide)
    (by decide) (by decide)
    (fun j t h1 h2 _ => by
      simp at h2
      omega)

/-- C3: the cached path of resolve returns exactly the cached
level-selection; it starts at the requested level, walks strictly downward
toward 0, and returns the first cached entry with non-empty primitives; if
no such entry exists it returns the cache entry exactly at the requested
level, and it fails (`NotFound`, embedded as `none`) only when that exact
entry is absent. -/
theorem C3_cached_selection (db : DB) (name : String) (branch depth : Nat) :
    (∀ l c, l ≤ depth → SpherizationDatabase.get db name branch l = some c →
      0 < c.spheres.length →
      (∀ j t, l < j → j ≤ depth → SpherizationDatabase.get db name branch j = some t →
        t.spheres.length = 0) →
      SpherizationHelper.select_cached_level db name branch depth = some c) ∧
    ((∀ i c, i ≤ depth → SpherizationDatabase.get db name branch i = some c →
        c.spheres.length = 0) →
      SpherizationHelper.select_cached_level db name branch depth =
        SpherizationDatabase.get db name branch depth) ∧
    (SpherizationHelper.select_cached_level db name branch depth = none →
      SpherizationDatabase.get db name branch depth = none) ∧
    (∀ (results : List (String × List Spherization)) (cache : Bool),
      SpherizationDatabase.existsEntry db name branch depth = true →
      (SpherizationHelper.get_spherization db results name depth branch cache).1 =
        SpherizationHelper.select_cached_level db name branch depth) := by
  refine ⟨?_, ?_, ?_, ?_⟩
  · intro l c hl hc hpos hemp
    unfold SpherizationHelper.select_cached_level
    rw [select_cached_loop_finds db name branch depth l c hl hc hpos hemp]
  · intro hall
    unfold SpherizationHelper.select_cached_level
    rw [select_cached_loop_none db name branch depth (fun i hi c hc => hall i c hi hc)]
  · intro hnone
    unfold SpherizationHelper.select_cached_level at hnone
    rcases hloop : select_cached_loop db name branch depth with _ | c
    · rw [hloop] at hnone
      exact hnone
    · rw [hloop] at hnone
      exact absurd hnone (by simp)
  · intro results cache hex
    unfold SpherizationHelper.get_spherization
    simp [hex]

/-- Witness for C3: on a cache holding an empty entry at level 0 and a
non-empty entry at level 1, the request for level 1 selects level 1. -/
theorem C3_cached_selection_witness :
    SpherizationHelper.select_cached_level
        (SpherizationDatabase.add (SpherizationDatabase.add [] keyM 8 0 A0c)
          keyM 8 1 A1c) keyM 8 1 = some A1c :=
  (C3_cached_selection
      (SpherizationDatabase.add (SpherizationDatabase.add [] keyM 8 0 A0c) keyM 8 1 A1c)
      keyM 8 1).1 1 A1c (by decide) (by decide) (by decide)
    (fun j t h1 h2 _ => by omega)

/-- C4 counterexample: with branch factor 8 and the engine sequence
`[A0 (empty), A1 (one primitive)]`, resolve at level 1 with caching
returns A1, but the subsequent cache-backed resolve at level 0 returns
A0 — not A1 as the claim states. -/
theorem C4_counterexample :
    (SpherizationHelper.get_spherization [] [(keyM, [A0c, A1c])] keyM 1 8 true).1 =
        some A1c ∧
    (SpherizationHelper.get_spherization
        (SpherizationHelper.get_spherization [] [(keyM, [A0c, A1c])] keyM 1 8 true).2
        [(keyM, [A0c, A1c])] keyM 0 8 true).1 = some A0c ∧
    A0c ≠ A1c := by
  refine ⟨by decide, by decide, by decide⟩

/-- C4 amended: in the same scenario the first resolve returns A1 and
caches both levels, and the subsequent cache-backed resolve at level 0
returns A0 — the exact-level cached entry, despite its empty primitives —
because the cached policy only walks downward from the requested level
and never up to a finer one. -/
theorem C4_amended_scenario :
    (SpherizationHelper.get_spherization [] [(keyM, [A0c, A1c])] keyM 1 8 true).1 =
        some A1c ∧
    SpherizationDatabase.existsEntry
        (SpherizationHelper.get_spherization [] [(keyM, [A0c, A1c])] keyM 1 8 true).2
        keyM 8 0 = true ∧
    SpherizationDatabase.existsEntry
        (SpherizationHelper.get_spherization [] [(keyM, [A0c, A1c])] keyM 1 8 true).2
        keyM 8 1 = true ∧
    (SpherizationHelper.get_spherization
        (SpherizationHelper.get_spherization [] [(keyM, [A0c, A1c])] keyM 1 8 true).2
        [(keyM, [A0c, A1c])] keyM 0 8 true).1 = some A0c := by
  refine ⟨by decide, by decide, by decide, by decide⟩

/-- C6 counterexample: two submissions under the same task name leave only
one tracked handle, yet two work-unit invocations were handed to the
executor — the second submit does run a second Computation Engine
invocation, contradicting the claim's "at most once concurrently". -/
theorem C6_counterexample :
    ((ParallelSpherizer.spherize_mesh (ParallelSpherizer.spherize_mesh
        ParallelSpherizer.init keyA) keyA).submitted).length = 2 ∧
    (ParallelSpherizer.spherize_mesh (ParallelSpherizer.spherize_mesh
        ParallelSpherizer.init keyA) keyA).waiting = [(keyA, 1)] := by
  refine ⟨by decide, by decide⟩

/-- C6 amended: the in-flight table holds at most one handle per task name,
and submitting under a name already present replaces the tracked handle
(the previous handle is abandoned — not cancelled, not awaited; its
invocation stays submitted) while bindings for other names are untouched;
however, each submission launches a new Computation Engine invocation, so
work for a given shape id can run more than once concurrently. -/
theorem C6_amended (ps : ParallelSpherizer) (name : String) :
    dictGet (ParallelSpherizer.spherize_mesh ps name).waiting name = some ps.nextId ∧
    (∀ k, k ≠ name →
      dictGet (ParallelSpherizer.spherize_mesh ps name).waiting k =
        dictGet ps.waiting k) ∧
    (ParallelSpherizer.spherize_mesh ps name).submitted =
      ps.submitted ++ [ps.nextId] ∧
    ((ps.waiting.map Prod.fst).Nodup →
      ((ParallelSpherizer.spherize_mesh ps name).waiting.map Prod.fst).Nodup) := by
  refine ⟨?_, ?_, rfl, ?_⟩
  · exact dictGet_dictSet_self ps.waiting name ps.nextId
  · intro k hk
    exact dictGet_dictSet_ne ps.waiting name k ps.nextId hk
  · exact nodup_map_fst_dictSet ps.waiting name ps.nextId

/-- Witness for the amended C6 at the initial dispatcher state. -/
theorem C6_amended_witness :
    dictGet (ParallelSpherizer.spherize_mesh ParallelSpherizer.init keyA).waiting keyA =
      some 0 ∧
    ((ParallelSpherizer.spherize_mesh ParallelSpherizer.init keyA).waiting.map
      Prod.fst).Nodup :=
  ⟨(C6_amended ParallelSpherizer.init keyA).1,
   (C6_amended ParallelSpherizer.init keyA).2.2.2 (by decide)⟩

/-- C5: the work unit applies exactly the fallback chain — the suitability
predicate is checked twice (before and after the single repair stage), the
repair pass runs once per failing stage (unsuitable input, engine error),
the decomposition pass runs exactly once and only when still unsuitable,
the engine runs once plus exactly one retry after an error, and the fatal
`ComputationFailure` occurs precisely when both engine attempts fail. -/
theorem C5_fallback_chain {Mesh : Type} (ext : Externals Mesh) (m : Mesh)
    (depth : Nat) :
    countEv (spherize_mesh ext (MeshInput.meshInput m) depth).2 Ev.check = 2 ∧
    countEv (spherize_mesh ext (MeshInput.meshInput m) depth).2 Ev.repair =
      ((if ext.check_valid_for_spherization (ext.normalize m) then 0 else 1) +
        (if (ext.compute_spheres (preparedMesh ext m)).isSome then 0 else 1)) ∧
    countEv (spherize_mesh ext (MeshInput.meshInput m) depth).2 Ev.decomp =
      (if ext.check_valid_for_spherization (repairedMesh ext m) then 0 else 1) ∧
    countEv (spherize_mesh ext (MeshInput.meshInput m) depth).2 Ev.compute =
      (if (ext.compute_spheres (preparedMesh ext m)).isSome then 1 else 2) ∧
    ((spherize_mesh ext (MeshInput.meshInput m) depth).1 = none ↔
      (ext.compute_spheres (preparedMesh ext m) = none ∧
        ext.compute_spheres (ext.smooth_manifold (preparedMesh ext m)) = none)) := by
  unfold spherize_mesh
  rcases h3 : ext.compute_spheres (preparedMesh ext m) with _ | sp
  · rcases h4 : ext.compute_spheres (ext.smooth_manifold (preparedMesh ext m)) with _ | sp2
    · by_cases h1 : ext.check_valid_for_spherization (ext.normalize m) = true <;>
        by_cases h2 : ext.check_valid_for_spherization (repairedMesh ext m) = true <;>
        simp [h1, h2, h3, h4, countEv, List.filter]
    · by_cases h1 : ext.check_valid_for_spherization (ext.normalize m) = true <;>
        by_cases h2 : ext.check_valid_for_spherization (repairedMesh ext m) = true <;>
        simp [h1, h2, h3, h4, countEv, List.filter]
  · by_cases h1 : ext.check_valid_for_spherization (ext.normalize m) = true <;>
      by_cases h2 : ext.check_valid_for_spherization (repairedMesh ext m) = true <;>
      simp [h1, h2, h3, countEv, List.filter]

/-- C9: a sphere-primitive input short-circuits the work unit: it returns
exactly `depth + 1` copies of the single-primitive Approximation at the
sphere's center with the sphere's radius and all three error metrics 0,
with an empty collaborator trace — no engine, suitability predicate,
repair, decomposition, or centering normalization is invoked. -/
theorem C9_sphere_shortcut {Mesh : Type} (ext : Externals Mesh) (x y z r : ℚ)
    (depth : Nat) :
    spherize_mesh ext (MeshInput.sphereInput x y z r) depth =
      (some (List.replicate (depth + 1)
        { spheres := [{ x := x, y := y, z := z, radius := r }]
        , mean_error := 0, best_error := 0, worst_error := 0 }), []) ∧
    (List.replicate (depth + 1)
      ({ spheres := [{ x := x, y := y, z := z, radius := r }]
       , mean_error := 0, best_error := 0, worst_error := 0 } : Spherization)).length =
      depth + 1 :=
  ⟨rfl, by simp⟩
